import Mathlib

/-!
Verification of the gide command-orchestration and debugger-model code:
shallow embedding of `src/cmd/gide` (command running, markup, registry
filtering, persistence) and `src/gidebug` (status stringer, variable
rendering), with theorems settling the specification claims.
-/

set_option maxRecDepth 4000

namespace Gide

/-! ## Generic string helpers (models of Go `strings` / `bytes` operations) -/

/-- Model of Go `strings.HasPrefix` on character lists. -/
def isPrefixL : List Char → List Char → Bool
  | [], _ => true
  | _ :: _, [] => false
  | a :: as, b :: bs => a == b && isPrefixL as bs

/-- Substring occurrence check on character lists (Go `strings.Contains` /
`bytes.Contains`): `pat` occurs contiguously in the list. -/
def infixL (pat : List Char) : List Char → Bool
  | [] => isPrefixL pat []
  | l@(_ :: rest) => isPrefixL pat l || infixL pat rest

/-- Model of Go `strings.Contains s pat`. -/
def strContains (s pat : String) : Bool := infixL pat.data s.data

/-! ## Debugger Status stringer (src/unnamed/part_000, generated by stringer) -/

/-- `_Status_name` from the generated stringer code. -/
def statusNameTable : String := "NotInitErrorBuildingReadyRunningStoppedFinishedStatusN"

/-- `_Status_index` from the generated stringer code. -/
def statusIndexTable : List Nat := [0, 7, 12, 20, 25, 32, 39, 47, 54]

/-- `_Status_name[_Status_index[j]:_Status_index[j+1]]`: the name of the j-th
enumeration member. -/
def statusSub (j : Nat) : String :=
  String.mk ((statusNameTable.data.drop (statusIndexTable.getD j 0)).take
    (statusIndexTable.getD (j + 1) 0 - statusIndexTable.getD j 0))

/-- `Status.String` (stringer): in-range values are looked up in the name
table; out-of-range values format as `Status(<n>)`.  Status is a Go int. -/
def statusString (i : Int) : String :=
  if i < 0 ∨ i ≥ 8 then "Status(" ++ toString i ++ ")"
  else statusSub i.toNat

/-- `Status.FromString`: scans j = 0..7 in order for an exact match; on a match
writes j to the receiver and returns no error, otherwise leaves the receiver
`cur` unchanged and returns an error (second component `false`). -/
def statusFromString (s : String) (cur : Int) : Int × Bool :=
  match (List.range 8).find? (fun j => s == statusSub j) with
  | some j => ((j : Int), true)
  | none => (cur, false)

/-- The list of all defined member names. -/
def statusNames : List String := (List.range 8).map statusSub

/-! ## Command model (src/cmd/gide, gide package command code) -/

/-- `CmdAndArgs`: the external program to execute and the args to pass. -/
structure CmdAndArgs where
  cmd : String
  args : List String
deriving DecidableEq, Repr

/-- `Command`: name, description, language tags, the sequence of steps, the
working directory, and the wait flag.  The attached output buffer (`Buf`, a
GUI text buffer) is represented by whether it is attached (`hasBuf`). -/
structure Command where
  name : String
  desc : String
  langs : List String
  cmds : List CmdAndArgs
  dir : String
  wait : Bool
  hasBuf : Bool
deriving DecidableEq, Repr

/-- The two reserved prompt tokens handled by `Command.PromptUser`. -/
def promptTokens : List String := ["{PromptString1}", "{PromptString2}"]

/-- Modelled from the spec: `ArgVarPrompts` (defined in argvars.go, which is
not part of the provided source) scans one argument string for occurrences of
the reserved prompt tokens and returns the set found.  Here the set is the
sublist of `promptTokens` occurring in the string. -/
def argVarPrompts (s : String) : List String :=
  promptTokens.filter (fun t => strContains s t)

/-- Union of token sets, keeping first-occurrence order (Go uses a map; any
fixed order is an admissible model since only membership and size matter). -/
def listUnion (a b : List String) : List String :=
  a ++ b.filter (fun x => ¬ a.contains x)

/-- `CmdAndArgs.HasPrompts`: union of the prompt tokens of all args. -/
def CmdAndArgs.hasPrompts (c : CmdAndArgs) : List String :=
  c.args.foldl (fun acc a => listUnion acc (argVarPrompts a)) []

/-- `Command.HasPrompts`: union over all steps. -/
def Command.promptVals (cm : Command) : List String :=
  cm.cmds.foldl (fun acc c => listUnion acc c.hasPrompts) []

/-- `CmdAndArgs.BindArgs`, state-explicit: builds a fresh resolved arg list
(`nil`, modelled as `none`, when there are no args) and returns the receiver
state as it is left by the call.  `BindArgVars` lives in argvars.go (not in
the provided source), so the binder is a parameter. -/
def CmdAndArgs.bindArgs (bind : String → String) (cm : CmdAndArgs) :
    Option (List String) × CmdAndArgs :=
  if cm.args.length = 0 then (none, cm)
  else (some (cm.args.foldr (fun a acc => bind a :: acc) []), cm)

/-- `CmdAndArgs.PrepCmd`, state-explicit: returns the spawn data
(executable, resolved args) as passed to `exec.Command`, the display string
`cmdstr`, and the receiver state as left by the call. -/
def CmdAndArgs.prepCmd (bind : String → String) (cm : CmdAndArgs) :
    (String × List String) × String × CmdAndArgs :=
  let cstr := bind cm.cmd
  let (argsO, cm1) := CmdAndArgs.bindArgs bind cm
  let cmdstr :=
    match argsO with
    | none => cstr
    | some args => cstr ++ " " ++ String.intercalate " " args
  ((cstr, argsO.getD []), cmdstr, cm1)

/-- The synchronous-sequential loop of `Command.RunAfterPrompts`:
`RunNoBuf`/`RunBufWait` both spawn the step and return the `RunStatus`
success flag, and the loop breaks on the first `false`.  `exec` abstracts one
step's spawn and status; the result is the list of executed steps in order
and the overall success. -/
def runStepsSeq (exec : CmdAndArgs → Bool) : List CmdAndArgs → List CmdAndArgs × Bool
  | [] => ([], true)
  | c :: rest =>
    if exec c then
      let r := runStepsSeq exec rest
      (c :: r.1, r.2)
    else ([c], false)

/-- The `RunningSteps` dispatch of `Command.RunAfterPrompts`: the
synchronous-sequential loop is chosen when the wait flag is set or there is
more than one step; otherwise the single step `Cmds[0]` is launched on a
background goroutine (modelled as `none`: no synchronous result). -/
def Command.runAfterPromptsSteps (exec : CmdAndArgs → Bool) (cm : Command) :
    Option (List CmdAndArgs × Bool) :=
  if cm.wait || cm.cmds.length > 1 then some (runStepsSeq exec cm.cmds)
  else none

/-- Observable outcome of one `Command.Run` call: how many prompt dialogs were
shown and how many times the step sequence (`RunAfterPrompts`) was executed. -/
structure RunTrace where
  promptsShown : Nat
  seqExecs : Nat
deriving DecidableEq, Repr

/-- `Command.PromptUser`: shows one string dialog per handled prompt token in
`pvals`; each accepted dialog bumps `cnt`, and when `cnt` reaches
`len(pvals)` the callback invokes `RunAfterPrompts`.  `acceptAll` is the
scenario in which the user accepts every dialog.  Returns (dialogs shown,
number of `RunAfterPrompts` invocations triggered from the callbacks). -/
def Command.promptUser (acceptAll : Bool) (pvals : List String) : Nat × Nat :=
  let dialogs := (pvals.filter (fun p => promptTokens.contains p)).length
  let resumes :=
    if acceptAll ∧ dialogs = pvals.length ∧ 0 < pvals.length then 1 else 0
  (dialogs, resumes)

/-- `Command.Run`: collects the prompt tokens; when there are none or the
process-wide `CmdNoUserPrompt` flag is set, calls `RunAfterPrompts`; then
(unconditionally — there is no return in the source) calls `PromptUser` with
the collected tokens. -/
def Command.run (noPrompt acceptAll : Bool) (cm : Command) : RunTrace :=
  let pvals := cm.promptVals
  let hasp := ¬ pvals.isEmpty
  let direct := if ¬ hasp ∨ noPrompt then 1 else 0
  let pu := Command.promptUser acceptAll pvals
  ⟨pu.1, direct + pu.2⟩

/-! ## Output annotator (`MarkupCmdOutput`) -/

/-- ASCII whitespace recognized by Go `bytes.Fields` (the further Unicode
space classes never occur in the inputs considered here). -/
def isSpaceGo (c : Char) : Bool :=
  c == ' ' || c == '\t' || c == '\n' || c == '\r' || c == '\x0b' || c == '\x0c'

/-- Accumulator pass for `goFields`: `cur` holds the characters of the field
being read, in reverse. -/
def fieldsAux : List Char → List Char → List String
  | cur, [] => if cur.isEmpty then [] else [String.mk cur.reverse]
  | cur, c :: rest =>
    if isSpaceGo c then
      if cur.isEmpty then fieldsAux [] rest
      else String.mk cur.reverse :: fieldsAux [] rest
    else fieldsAux (c :: cur) rest

/-- Model of Go `bytes.Fields`: split around runs of whitespace, no empty
fields. -/
def goFields (s : String) : List String := fieldsAux [] s.data

/-- A field qualifies for markup when it contains a `.` (extension) or a `/`
(path), as tested at the top of the markup loop. -/
def qualifies (ff : String) : Bool := ff.data.contains '.' || ff.data.contains '/'

/-- Accumulator pass for `splitColon`, keeping empty pieces like
`bytes.Split`. -/
def splitColonAux : List Char → List Char → List String
  | cur, [] => [String.mk cur.reverse]
  | cur, c :: rest =>
    if c == ':' then String.mk cur.reverse :: splitColonAux [] rest
    else splitColonAux (c :: cur) rest

/-- Model of Go `bytes.Split(ff, []byte(":"))`: always at least one piece. -/
def splitColon (s : String) : List String := splitColonAux [] s.data

/-- Model of Go `strings.HasPrefix` on strings. -/
def startsWithGo (s pre : String) : Bool := isPrefixL pre.data s.data

/-- Model of Go `strings.TrimPrefix(fn, "./")`. -/
def trimDotSlash (s : String) : String :=
  if startsWithGo s "./" then String.mk (s.data.drop 2) else s

/-- Model of Go `filepath.Join` on two elements.  The `Clean` normalization
pass of the real function is not modelled: no claim inspects the joined
path. -/
def filepathJoin (a b : String) : String :=
  if a = "" then b else if b = "" then a else a ++ "/" ++ b

/-- The link construction of `MarkupCmdOutput` for one qualifying field
`ff`: split on `:` into file name, position and column, resolve the name
against `cpath` (the value of `ArgVarVals["{FileDirPath}"]`), and format the
anchor. -/
def mkLink (cpath ff : String) : String :=
  let fnflds := splitColon ff
  let fn0 := fnflds.getD 0 ""
  let pos := if fnflds.length > 1 then fnflds.getD 1 "" else ""
  let col := if fnflds.length > 2 then fnflds.getD 2 "" else ""
  let fn := if startsWithGo fn0 cpath then fn0
            else filepathJoin cpath (trimDotSlash fn0)
  if col ≠ "" then
    "<a href=\"file:///" ++ fn ++ "#L" ++ pos ++ "C" ++ col ++ "\">" ++ ff ++ "</a>"
  else if pos ≠ "" then
    "<a href=\"file:///" ++ fn ++ "#L" ++ pos ++ "\">" ++ ff ++ "</a>"
  else
    "<a href=\"file:///" ++ fn ++ "\">" ++ ff ++ "</a>"

/-- The indexed loop of `MarkupCmdOutput`, iterating over the index list
`[0, ..., mx-1]`: skip non-qualifying fields; at the first qualifying one,
replace it by its link and break. -/
def markupLoop (cpath : String) (flds : List String) : List Nat → List String
  | [] => flds
  | i :: rest =>
    let ff := flds.getD i ""
    if ¬ qualifies ff then markupLoop cpath flds rest
    else flds.set i (mkLink cpath ff)

/-- `MarkupCmdOutput`: split the line into fields; an empty field list
returns the input unchanged; otherwise scan the first `mx = min(len, 2)`
fields with the markup loop and rejoin all fields with single spaces
(`bytes.Join(flds, " ")`). -/
def markupCmdOutput (cpath out : String) : String :=
  let flds := goFields out
  if flds.length = 0 then out
  else String.intercalate " " (markupLoop cpath flds (List.range (min flds.length 2)))

/-! ## Run status reporting (`Command.RunStatus`) -/

/-- Go errors returned from running a step: an `*exec.ExitError` (non-zero
exit) or any other error (launch failure etc.). -/
inductive GoError where
  | exitError (msg : String)
  | other (msg : String)
deriving DecidableEq, Repr

/-- Go runtime panics that terminate the process. -/
inductive GoPanic where
  | sliceOutOfRange
  | nilDeref
deriving DecidableEq, Repr

/-- Result of one `RunStatus` call: either a Go runtime panic (which kills
the host process) or the normal return. -/
inductive StatusResult where
  | panic (p : GoPanic)
  | ok (rval : Bool) (statusLine : String) (buf : List String)
deriving DecidableEq, Repr

/-- `CmdOutStatusLen`: amount of command output to include in the status
update. -/
def cmdOutStatusLen : Nat := 80

/-- `Command.RunStatus`, with Go runtime panics made explicit.  `tstr` stands
for the formatted current time and `buf` for `cm.Buf` (`none` = nil).  On
the non-panicking path returns the success flag, the status line passed to
`ge.SetStatus`, and the buffer lines after the appends.  The source slices
`out[:CmdOutStatusLen]` whenever `out != nil`, and appends to `cm.Buf`
unconditionally. -/
def runStatus (tstr : String) (buf : Option (List String)) (cpath cmdstr : String)
    (err : Option GoError) (out : Option String) : StatusResult :=
  let outRes : Except GoPanic String :=
    match out with
    | none => .ok ""
    | some o =>
      if o.length < cmdOutStatusLen then .error .sliceOutOfRange
      else .ok (String.mk (o.data.take cmdOutStatusLen))
  match outRes with
  | .error p => .panic p
  | .ok outstr =>
    let fr : String × Bool :=
      match err with
      | none => (cmdstr ++ " <b>successful</b> at: " ++ tstr, true)
      | some (.exitError m) =>
        (cmdstr ++ " <b>failed</b> at: " ++ tstr ++ " with error: " ++ m, false)
      | some (.other m) =>
        (cmdstr ++ " <b>exec error</b> at: " ++ tstr ++ " error: " ++ m, false)
    match buf with
    | none => .panic .nilDeref
    | some lines =>
      let lines1 := lines ++ ["\n", markupCmdOutput cpath fr.1]
      .ok fr.2 (cmdstr ++ " " ++ outstr) lines1

/-! ## Persistence (`Commands.OpenJSON`) -/

/-- `Commands.OpenJSON`, state-explicit.  `readFile` is the outcome of
`ioutil.ReadFile`; `unmarshal` models `json.Unmarshal` into the receiver
(which the body has already reset), taking the reset contents and returning
the contents it leaves together with its error.  The first statement of the
source resets the receiver to a fresh empty list before anything can fail. -/
def openJSON (readFile : Except String String)
    (unmarshal : String → List Command → List Command × Option String)
    (_cm : List Command) : List Command × Option String :=
  let reset : List Command := []
  match readFile with
  | .error e => (reset, some e)
  | .ok b => unmarshal b reset

/-! ## Version-control command filter (`VersCtrlCmdNames`) -/

/-- Modelled from the spec: `VersCtrlSystems` (defined outside the provided
source) is the list of known version-control system names; the spec's
examples use exactly Git and SVN. -/
def versCtrlSystems : List String := ["Git", "SVN"]

/-- Removal of the element at index `i` (`append(cmds[:i], cmds[i+1:]...)`). -/
def removeIdx (l : List String) (i : Nat) : List String :=
  l.take i ++ l.drop (i + 1)

/-- The inner loop of `VersCtrlCmdNames`: for each known system other than
the active one that occurs in `cmd`, remove the element at index `i`. -/
def vcInner (vcnm cmd : String) (i : Nat) : List String → List String → List String
  | cmds, [] => cmds
  | cmds, vcs :: rest =>
    vcInner vcnm cmd i
      (if vcs != vcnm && strContains cmd vcs then removeIdx cmds i else cmds) rest

/-- The outer loop of `VersCtrlCmdNames`: indices from `sz-1` down to `0`;
a command containing the active system's name is kept (`continue`), otherwise
the inner loop may remove it. -/
def vcOuter (vcnm : String) : Nat → List String → List String
  | 0, cmds => cmds
  | i + 1, cmds =>
    let cmd := cmds.getD i ""
    let cmds' := if strContains cmd vcnm then cmds
                 else vcInner vcnm cmd i cmds versCtrlSystems
    vcOuter vcnm i cmds'

/-- `VersCtrlCmdNames`: an empty active-VCS name returns the list unchanged;
otherwise run the backward removal loop over the whole list. -/
def versCtrlCmdNames (vcnm : String) (cmds : List String) : List String :=
  if vcnm = "" then cmds else vcOuter vcnm cmds.length cmds

/-! ## Debugger variable tree (src/gidebug/vars.go) -/

/-- `Variable` (gidebug): one inspected value.  Fields, in order: name
(`Nm`, from the embedded ki.Node), `Value`, `TypeStr`, `ElValue`, whether
`Kind.IsPtr()`, the primitive list contents (`List`), the primitive map
contents (`Map`), the nested map contents (`MapVar`), and the child nodes
(`Kids`).  The two Go maps are modelled as association lists in a fixed
iteration order (Go's map order is unspecified; the claims considered here
do not depend on it). -/
inductive Variable where
  | mk (nm value typeStr elValue : String) (isPtr : Bool)
      (listv : List String) (mapv : List (String × String))
      (mapVarv : List (String × Variable)) (kids : List Variable)

def Variable.nm : Variable → String
  | .mk n _ _ _ _ _ _ _ _ => n

def Variable.value : Variable → String
  | .mk _ v _ _ _ _ _ _ _ => v

def Variable.typeStr : Variable → String
  | .mk _ _ t _ _ _ _ _ _ => t

def Variable.elValue : Variable → String
  | .mk _ _ _ e _ _ _ _ _ => e

def Variable.isPtr : Variable → Bool
  | .mk _ _ _ _ p _ _ _ _ => p

def Variable.listv : Variable → List String
  | .mk _ _ _ _ _ l _ _ _ => l

def Variable.mapv : Variable → List (String × String)
  | .mk _ _ _ _ _ _ m _ _ => m

def Variable.mapVarv : Variable → List (String × Variable)
  | .mk _ _ _ _ _ _ _ mv _ => mv

def Variable.kids : Variable → List Variable
  | .mk _ _ _ _ _ _ _ _ k => k

/-- `indent.String(indent.Space, ident, 2)` from goki/ki/indent (external
dependency): `2 * ident` spaces. -/
def indentStr (ident : Int) : String :=
  String.mk (List.replicate (2 * ident).toNat ' ')

/-- The `vr.List` loop of `ValueString`: `fmt.Sprintf("%d: %s", i, el)` per
element, with `", "` after every element but the last (`i < lln-1`).  No
length bound is applied here. -/
def listLoop (lln : Nat) : Nat → String → List String → String
  | _, b, [] => b
  | i, b, el :: rest =>
    listLoop lln (i + 1)
      (b ++ toString i ++ ": " ++ el ++ if i < lln - 1 then ", " else "") rest

/-- The `vr.Map` loop of `ValueString`: `"k: v, "` per entry (trailing
separator after every entry).  No length bound is applied here. -/
def mapPrimLoop : String → List (String × String) → String
  | b, [] => b
  | b, (k, v) :: rest => mapPrimLoop (b ++ k ++ ": " ++ v ++ ", ") rest

mutual

/-- `Variable.ValueString`: pre-set `Value`, then pre-set `ElValue`, then the
single-child pointer dereference, else the brace-delimited aggregate with the
depth bound checked right after the opening brace, then the list, primitive
map, nested map and child loops, and the closing brace. -/
def Variable.valueString (nl : Bool) (ident maxdepth maxlen : Int)
    (outType : Bool) (vr : Variable) : String :=
  match vr with
  | .mk _ value typeStr elValue isPtr listv mapv mapVarv kids =>
    if value ≠ "" then value
    else if elValue ≠ "" then elValue
    else
      match isPtr, kids with
      | true, [k] => "*" ++ Variable.valueString nl ident maxdepth maxlen true k
      | _, ks =>
        let b1 := (if outType then typeStr else "") ++ " \x7b"
        if ident > maxdepth then
          b1 ++ "..." ++ (if nl then "\n" ++ indentStr ident else "") ++ "\x7d"
        else
          let b2 := listLoop listv.length 0 b1 listv
          let b3 := mapPrimLoop b2 mapv
          let b4 := Variable.mapVarLoop nl ident maxdepth maxlen b3 mapVarv
          let b5 := Variable.kidsLoop nl ident maxdepth maxlen b4 ks
          b5 ++ (if nl then "\n" ++ indentStr ident else "") ++ "\x7d"
termination_by sizeOf vr

/-- The `vr.MapVar` loop of `ValueString`: per entry, the optional
newline+indent, `"k: "`, the entry's recursive rendering at `ident+1` without
its type name, then the length-bound check: if the accumulated builder
exceeds `maxlen`, append `"..."` and break, else append `", "` when not in
newline mode and continue. -/
def Variable.mapVarLoop (nl : Bool) (ident maxdepth maxlen : Int) (b : String) :
    List (String × Variable) → String
  | [] => b
  | (k, ve) :: rest =>
    let b1 := if nl then b ++ "\n" ++ indentStr (ident + 1) else b
    let b2 := b1 ++ k ++ ": "
    let b3 := b2 ++ Variable.valueString nl (ident + 1) maxdepth maxlen false ve
    if (b3.length : Int) > maxlen then b3 ++ "..."
    else Variable.mapVarLoop nl ident maxdepth maxlen
      (if nl then b3 else b3 ++ ", ") rest
termination_by l => sizeOf l

/-- The `vr.Kids` loop of `ValueString`: per child, the optional
newline+indent, the `"nm: "` prefix when the child is named, the child's
recursive rendering at `ident+1` with its type name, then the same
length-bound check as the nested-map loop. -/
def Variable.kidsLoop (nl : Bool) (ident maxdepth maxlen : Int) (b : String) :
    List Variable → String
  | [] => b
  | ve :: rest =>
    let b1 := if nl then b ++ "\n" ++ indentStr (ident + 1) else b
    let b2 := if ve.nm ≠ "" then b1 ++ ve.nm ++ ": " else b1
    let b3 := b2 ++ Variable.valueString nl (ident + 1) maxdepth maxlen true ve
    if (b3.length : Int) > maxlen then b3 ++ "..."
    else Variable.kidsLoop nl ident maxdepth maxlen
      (if nl then b3 else b3 ++ ", ") rest
termination_by l => sizeOf l

end

/-- The one-child append step of the `vr.Kids` loop, as a standalone
function: the builder contents right after a child `ve` has been rendered
onto `b` and before the length-bound check. -/
def kidStep (nl : Bool) (ident maxdepth maxlen : Int) (b : String)
    (ve : Variable) : String :=
  let b1 := if nl then b ++ "\n" ++ indentStr (ident + 1) else b
  let b2 := if ve.nm ≠ "" then b1 ++ ve.nm ++ ": " else b1
  b2 ++ Variable.valueString nl (ident + 1) maxdepth maxlen true ve

/-! ## Specification-side descriptions, for refinement comparisons -/

/-- From the spec's words (for comparison with the source-derived
`markupCmdOutput`): the index of the first qualifying field among the first
two whitespace-separated tokens. -/
def specFirstQual : List String → Option Nat
  | [] => none
  | a :: rest =>
    if qualifies a then some 0
    else
      match rest with
      | [] => none
      | b :: _ => if qualifies b then some 1 else none

/-- From the spec's words (for comparison with the source-derived
`versCtrlCmdNames`): a command name is kept when it contains the active VCS
name, or contains the name of no other version-control system. -/
def vcKeep (vcnm cmd : String) : Bool :=
  strContains cmd vcnm ||
    !(versCtrlSystems.any (fun v => v != vcnm && strContains cmd v))

end Gide

/-! # Theorems settling the claims -/

namespace Gide

/-! ## Helper lemmas -/

/-- The explicit fold in `bindArgs` builds exactly the map of the binder. -/
theorem bindFold_eq_map (bind : String → String) (l : List String) :
    l.foldr (fun a acc => bind a :: acc) [] = l.map bind := by
  induction l with
  | nil => rfl
  | cons a t ih => simp [ih]

/-- The sequential step loop on `pre ++ A :: post` with all of `pre`
succeeding and `A` failing executes `pre` then `A` and stops. -/
theorem runStepsSeq_failfast (exec : CmdAndArgs → Bool)
    (pre post : List CmdAndArgs) (A : CmdAndArgs)
    (hpre : ∀ c ∈ pre, exec c = true) (hA : exec A = false) :
    runStepsSeq exec (pre ++ A :: post) = (pre ++ [A], false) := by
  induction pre with
  | nil => simp [runStepsSeq, hA]
  | cons c t ih =>
    have hc : exec c = true := hpre c (by simp)
    have ht : ∀ x ∈ t, exec x = true := fun x hx => hpre x (by simp [hx])
    simp [runStepsSeq, hc, ih ht]

/-! ## The claims -/

/-- C1: the claim says that with prompt tokens present and `CmdNoUserPrompt`
set, `Run` proceeds directly to execution without issuing any interactive
prompt and runs the step sequence exactly once.  The source has no `return`
after the `RunAfterPrompts` call, so `PromptUser` still runs: on the standard
`Echo prompt` command with the flag set and the dialog accepted, one prompt
dialog is shown and the step sequence is executed twice. -/
theorem c1_run_suppression_broken :
    (Command.promptVals
        ⟨"Echo prompt", "", [], [⟨"echo", ["{PromptString1}"]⟩], "", true, false⟩ ≠ []) ∧
    Command.run true true
        ⟨"Echo prompt", "", [], [⟨"echo", ["{PromptString1}"]⟩], "", true, false⟩ =
      ⟨1, 2⟩ := by
  decide

/-- C2: for a command run in synchronous-sequential mode (wait flag set, or
more than one step), with every step before `A` succeeding and `A` failing,
the executed steps are exactly `pre ++ [A]` in definition order, no later
step runs, and the run's success is false. -/
theorem c2_failfast (exec : CmdAndArgs → Bool) (cm : Command)
    (pre post : List CmdAndArgs) (A : CmdAndArgs)
    (hw : cm.wait = true ∨ cm.cmds.length > 1)
    (hsteps : cm.cmds = pre ++ A :: post)
    (hpre : ∀ c ∈ pre, exec c = true) (hA : exec A = false) :
    Command.runAfterPromptsSteps exec cm = some (pre ++ [A], false) := by
  have hcond : (cm.wait || decide (cm.cmds.length > 1)) = true := by
    rcases hw with h | h
    · simp [h]
    · simp [decide_eq_true h]
  simp only [Command.runAfterPromptsSteps, hcond, if_true, Option.some.injEq]
  rw [hsteps]
  exact runStepsSeq_failfast exec pre post A hpre hA

/-- C2 witness: a two-step command `[A, B]` with `wait = true` and `A`
failing executes only `A` and reports failure. -/
theorem c2_failfast_witness :
    Command.runAfterPromptsSteps (fun c => c.cmd == "ok")
        ⟨"T", "", [], [⟨"bad", []⟩, ⟨"ok", []⟩], "", true, false⟩ =
      some ([⟨"bad", []⟩], false) :=
  c2_failfast (fun c => c.cmd == "ok") _ [] [⟨"ok", []⟩] ⟨"bad", []⟩
    (Or.inl rfl) rfl (by simp) (by decide)

/-- C3 counterexample: the claim says a failed load leaves the in-memory
value unchanged; but `OpenJSON` resets the receiver before reading, so after
a read failure a previously non-empty command set is empty, not unchanged. -/
theorem c3_openjson_cex :
    (openJSON (.error "no such file") (fun _ cs => (cs, none))
        [⟨"Run Proj", "", [], [⟨"{RunExec}", []⟩], "", false, false⟩]).1 = [] ∧
    ([] : List Command) ≠
      [⟨"Run Proj", "", [], [⟨"{RunExec}", []⟩], "", false, false⟩] := by
  decide

/-- C3 amended: `OpenJSON` discards the prior in-memory value
unconditionally (its result never depends on it), and a read failure leaves
the freshly reset empty list together with the propagated error. -/
theorem c3_openjson_reset (readFile : Except String String)
    (unmarshal : String → List Command → List Command × Option String)
    (cm cm' : List Command) (e : String) (h : readFile = .error e) :
    openJSON readFile unmarshal cm = ([], some e) ∧
    openJSON readFile unmarshal cm = openJSON readFile unmarshal cm' := by
  subst h
  exact ⟨rfl, rfl⟩

/-- C3 amended witness: concrete failed read over a non-empty prior set. -/
theorem c3_openjson_reset_witness :
    openJSON (.error "no such file") (fun _ cs => (cs, none))
        [⟨"Run Proj", "", [], [⟨"{RunExec}", []⟩], "", false, false⟩] =
      ([], some "no such file") :=
  (c3_openjson_reset (.error "no such file") (fun _ cs => (cs, none))
    [⟨"Run Proj", "", [], [⟨"{RunExec}", []⟩], "", false, false⟩] [] "no such file"
    rfl).1

/-- C4: the claim says `RunStatus` never terminates the host process for any
command string, error and captured output.  The source slices
`out[:CmdOutStatusLen]` whenever `out != nil`, which panics for output
shorter than 80 bytes, and it appends to `cm.Buf` unconditionally, which
dereferences a nil buffer on the `RunNoBuf` path. -/
theorem c4_runstatus_panics :
    runStatus "t" (some []) "" "ls -la" none (some "ok") = .panic .sliceOutOfRange ∧
    runStatus "t" none "" "ls -la" none none = .panic .nilDeref := by
  decide

/-- C10: binding a step is frame-preserving: `BindArgs` and `PrepCmd` leave
the step's `Cmd` and `Args` exactly as they were, and return a freshly built
resolved list equal to the binder mapped over the original args. -/
theorem c10_bind_frame (bind : String → String) (cm : CmdAndArgs) :
    (CmdAndArgs.bindArgs bind cm).2 = cm ∧
    (CmdAndArgs.prepCmd bind cm).2.2 = cm ∧
    (CmdAndArgs.bindArgs bind cm).1 =
      (if cm.args.isEmpty then none else some (cm.args.map bind)) ∧
    (CmdAndArgs.prepCmd bind cm).1 = (bind cm.cmd, cm.args.map bind) := by
  refine ⟨?_, ?_, ?_, ?_⟩ <;>
    cases hargs : cm.args <;>
      simp [CmdAndArgs.bindArgs, CmdAndArgs.prepCmd, hargs, bindFold_eq_map]

end Gide

namespace Gide

/-- C6: round-trip for every defined Status member (`FromString ∘ String`
is the identity on 0..7, writing the member and reporting no error), and
any string that is not exactly a member name leaves the receiver unchanged
and reports an error. -/
theorem c6_status_roundtrip (j cur cur' : Int) (s : String)
    (hj : 0 ≤ j ∧ j < 8) (hs : s ∉ statusNames) :
    statusFromString (statusString j) cur = (j, true) ∧
    statusFromString s cur' = (cur', false) := by
  constructor
  · obtain ⟨h0, h8⟩ := hj
    interval_cases j <;> rfl
  · have hfind : (List.range 8).find? (fun k => s == statusSub k) = none := by
      rw [List.find?_eq_none]
      intro k hk
      simp only [beq_eq_false_iff_ne, ne_eq, Bool.not_eq_true]
      intro heq
      exact hs (List.mem_map.mpr ⟨k, hk, heq.symm⟩)
    simp [statusFromString, hfind]

/-- C6 witness: `Ready` round-trips to 3 and `"Bogus"` fails, leaving the
receiver at its prior value 5. -/
theorem c6_status_roundtrip_witness :
    statusFromString (statusString 3) 0 = (3, true) ∧
    statusFromString "Bogus" 5 = (5, false) :=
  c6_status_roundtrip 3 0 5 "Bogus" (by decide) (by decide)

end Gide

namespace Gide

/-- C7 counterexample: the claim says a node past the depth bound renders
exactly the string `{...}`; the source emits at least a leading space (and
the type name when requested), so even the minimal composite node renders
`" {...}"`, not `"{...}"`. -/
theorem c7_depth_cex :
    Variable.valueString false 1 0 100 false (.mk "" "" "" "" false [] [] [] []) =
      " {...}" ∧ " {...}" ≠ "{...}" := by
  constructor
  · simp [Variable.valueString]
  · decide

/-- C7 amended: for a composite node (empty `Value` and `ElValue`, not a
pointer with exactly one child) at `ident > maxdepth`, `ValueString` renders
the type name when requested, then `" {...}"`, with a newline and indent
before the closing brace in multiline mode — independent of the node's list,
map and child content, which is never descended into. -/
theorem c7_depth_amended (nl : Bool) (ident maxdepth maxlen : Int)
    (outType : Bool) (nm typeStr : String) (isPtr : Bool) (listv : List String)
    (mapv : List (String × String)) (mapVarv : List (String × Variable))
    (kids : List Variable)
    (hd : ident > maxdepth) (hp : ¬ (isPtr = true ∧ kids.length = 1)) :
    Variable.valueString nl ident maxdepth maxlen outType
        (.mk nm "" typeStr "" isPtr listv mapv mapVarv kids) =
      (if outType then typeStr else "") ++ " \x7b" ++ "..." ++
        (if nl then "\n" ++ indentStr ident else "") ++ "\x7d" := by
  cases isPtr with
  | false =>
    cases kids with
    | nil => simp [Variable.valueString, hd]
    | cons k t => simp [Variable.valueString, hd]
  | true =>
    match kids with
    | [] => simp [Variable.valueString, hd]
    | [k] => exact absurd ⟨rfl, rfl⟩ hp
    | k1 :: k2 :: t => simp [Variable.valueString, hd]

/-- C7 amended witness: a depth-exceeded struct node with a child renders
`"T {...}"` without descending into the child. -/
theorem c7_depth_amended_witness :
    Variable.valueString false 1 0 100 true
        (.mk "" "" "T" "" false [] [] [] [.mk "kid" "v" "" "" false [] [] [] []]) =
      "T {...}" := by
  have h := c7_depth_amended false 1 0 100 true "" "T" false [] [] []
    [.mk "kid" "v" "" "" false [] [] [] []] (by decide) (by simp)
  rw [h]
  decide

/-- C8 counterexample: the claim says that once the accumulated output
exceeds `maxLen` the rendering appends `...` and renders no remaining
sibling element; the list loop applies no length bound at all, so with
`maxlen = 2` the first element `xxxxx` already exceeds the bound yet the
sibling `yy` is still rendered and no ellipsis is emitted. -/
theorem c8_lenbound_cex :
    Variable.valueString false 0 3 2 false
        (.mk "" "" "" "" false ["xxxxx", "yy"] [] [] []) =
      " {0: xxxxx, 1: yy}" ∧
    strContains " {0: xxxxx, 1: yy}" "1: yy" = true ∧
    strContains " {0: xxxxx, 1: yy}" "..." = false ∧
    (" \x7b0: xxxxx".length : Int) > 2 := by
  refine ⟨?_, by decide, by decide, by decide⟩
  simp [Variable.valueString, listLoop, mapPrimLoop, Variable.mapVarLoop,
    Variable.kidsLoop]
  decide

/-- C8 amended: the length bound is enforced (only) inside the nested-map
and child-node loops: in the child-node loop, as soon as the accumulated
builder exceeds `maxlen` after appending a child, `...` is appended and the
loop stops — the result is independent of the remaining children. -/
theorem c8_kids_truncation (nl : Bool) (ident maxdepth maxlen : Int)
    (b : String) (ve : Variable) (rest : List Variable)
    (h : ((kidStep nl ident maxdepth maxlen b ve).length : Int) > maxlen) :
    Variable.kidsLoop nl ident maxdepth maxlen b (ve :: rest) =
      kidStep nl ident maxdepth maxlen b ve ++ "..." := by
  rw [Variable.kidsLoop]
  simp only [kidStep] at h ⊢
  rw [if_pos h]

/-- C8 amended witness: with `maxlen = 2`, the first child's rendering
`"a: xxxxx"` exceeds the bound, `...` is appended, and the second child is
not rendered. -/
theorem c8_kids_truncation_witness :
    Variable.kidsLoop false 0 3 2 ""
        [.mk "a" "xxxxx" "" "" false [] [] [] [],
         .mk "b" "yy" "" "" false [] [] [] []] = "a: xxxxx..." := by
  have h := c8_kids_truncation false 0 3 2 "" (.mk "a" "xxxxx" "" "" false [] [] [] [])
    [.mk "b" "yy" "" "" false [] [] [] []]
    (by simp [kidStep, Variable.valueString, Variable.nm]; decide)
  rw [h]
  simp [kidStep, Variable.valueString, Variable.nm]

end Gide

namespace Gide

/-- C5 counterexample: the claim says a line with no qualifying field among
its first two tokens is returned byte-for-byte unchanged; the source rejoins
the whitespace-split fields with single spaces, so `"a  b"` (two spaces, no
qualifying field) comes back as `"a b"`. -/
theorem c5_markup_cex :
    markupCmdOutput "" "a  b" = "a b" ∧ "a b" ≠ "a  b" := by decide

/-- C5 amended: `MarkupCmdOutput` rewrites at most one field — exactly the
first qualifying one among the first two whitespace-separated tokens, per
`specFirstQual` — and rejoins all fields with single spaces; a line with no
qualifying field among its first two tokens is returned with its fields
joined by single spaces (byte-for-byte equal to the input only when the
input's separators were already single spaces; an all-whitespace line is
returned verbatim). -/
theorem c5_markup_first_two (cpath out : String) :
    markupCmdOutput cpath out =
      match specFirstQual (goFields out) with
      | none =>
        if goFields out = [] then out else String.intercalate " " (goFields out)
      | some i =>
        String.intercalate " "
          ((goFields out).set i (mkLink cpath ((goFields out).getD i ""))) := by
  have r1 : List.range 1 = [0] := rfl
  have r2 : List.range 2 = [0, 1] := rfl
  rcases hf : goFields out with _ | ⟨a, _ | ⟨b, t⟩⟩
  · simp [markupCmdOutput, hf, specFirstQual]
  · by_cases hqa : qualifies a
    · simp [markupCmdOutput, hf, specFirstQual, hqa, markupLoop, r1]
    · simp [markupCmdOutput, hf, specFirstQual, hqa, markupLoop, r1]
  · have hmin : min (t.length + 2) 2 = 2 := min_eq_right (by omega)
    by_cases hqa : qualifies a
    · simp [markupCmdOutput, hf, specFirstQual, hqa, markupLoop, hmin, r2]
    · by_cases hqb : qualifies b
      · simp [markupCmdOutput, hf, specFirstQual, hqa, hqb, markupLoop, hmin, r2]
      · simp [markupCmdOutput, hf, specFirstQual, hqa, hqb, markupLoop, hmin, r2]

end Gide

namespace Gide

/-- `getD` at the length of the left part of an append reads the head of the
right part. -/
theorem getD_append_len (pre : List String) (x : String) (suf : List String) :
    (pre ++ x :: suf).getD pre.length "" = x := by
  induction pre with
  | nil => rfl
  | cons a t ih => simpa using ih

/-- Removing the element at the index right past `pre` drops `x`. -/
theorem removeIdx_append_len (pre : List String) (x : String) (suf : List String) :
    removeIdx (pre ++ x :: suf) pre.length = pre ++ suf := by
  induction pre with
  | nil => simp [removeIdx]
  | cons a t ih =>
    simp only [removeIdx, List.cons_append, List.length_cons, List.take_succ_cons,
      List.drop_succ_cons] at ih ⊢
    simp [ih]

/-- Evaluation of the inner removal loop over the two known systems: when
the active name is one of them, at most one other system can match, so the
loop removes index `i` exactly when some other system's name occurs. -/
theorem vcInner_active (vcnm cmd : String) (i : Nat) (cmds : List String)
    (hv : vcnm ∈ versCtrlSystems) :
    vcInner vcnm cmd i cmds versCtrlSystems =
      if versCtrlSystems.any (fun v => v != vcnm && strContains cmd v)
      then removeIdx cmds i else cmds := by
  have hv' : vcnm = "Git" ∨ vcnm = "SVN" := by simpa [versCtrlSystems] using hv
  rcases hv' with h | h <;> subst h
  · have e1 : (("Git" : String) != "Git") = false := by decide
    have e2 : (("SVN" : String) != "Git") = true := by decide
    by_cases hc : strContains cmd "SVN" = true
    · simp [vcInner, versCtrlSystems, e1, e2, hc]
    · simp only [Bool.not_eq_true] at hc
      simp [vcInner, versCtrlSystems, e1, e2, hc]
  · have e1 : (("SVN" : String) != "SVN") = false := by decide
    have e2 : (("Git" : String) != "SVN") = true := by decide
    by_cases hc : strContains cmd "Git" = true
    · simp [vcInner, versCtrlSystems, e1, e2, hc]
    · simp only [Bool.not_eq_true] at hc
      simp [vcInner, versCtrlSystems, e1, e2, hc]

/-- Invariant of the backward outer loop: running it over the first
`pre.length` indices of `pre ++ suf` filters `pre` by `vcKeep` and leaves
`suf` alone. -/
theorem vcOuter_filter (vcnm : String) (hv : vcnm ∈ versCtrlSystems)
    (pre : List String) : ∀ suf : List String,
    vcOuter vcnm pre.length (pre ++ suf) =
      pre.filter (fun c => vcKeep vcnm c) ++ suf := by
  induction pre using List.reverseRecOn with
  | nil => intro suf; simp [vcOuter]
  | append_singleton pre' x ih =>
    intro suf
    have hlen : (pre' ++ [x]).length = pre'.length + 1 := by simp
    rw [hlen, List.append_assoc, List.singleton_append]
    rw [vcOuter, getD_append_len]
    by_cases hx : strContains x vcnm = true
    · simp only [hx, if_true]
      rw [← List.singleton_append, ← List.append_assoc]
      rw [show (pre' ++ [x]) ++ suf = pre' ++ (x :: suf) by simp]
      rw [ih (x :: suf)]
      simp [List.filter_append, vcKeep, hx]
    · simp only [Bool.not_eq_true] at hx
      rw [hx]
      simp only [Bool.false_eq_true, if_false]
      rw [vcInner_active vcnm x pre'.length (pre' ++ x :: suf) hv]
      by_cases ho : versCtrlSystems.any (fun v => v != vcnm && strContains x v) = true
      · rw [if_pos ho, removeIdx_append_len, ih suf]
        have hk : vcKeep vcnm x = false := by simp [vcKeep, hx, ho]
        simp [List.filter_append, hk]
      · simp only [Bool.not_eq_true] at ho
        rw [ho]
        simp only [Bool.false_eq_true, if_false]
        rw [ih (x :: suf)]
        have hk : vcKeep vcnm x = true := by simp [vcKeep, ho]
        simp [List.filter_append, hk]

/-- C9: for every command-name list, with the active VCS one of the known
systems, `VersCtrlCmdNames` keeps exactly the names that contain the active
system's name or contain no other system's name (order preserved); names
containing only a different system's name are removed. -/
theorem c9_vcs_filter (vcnm : String) (cmds : List String)
    (hv : vcnm ∈ versCtrlSystems) :
    versCtrlCmdNames vcnm cmds = cmds.filter (fun c => vcKeep vcnm c) := by
  have hne : ¬ vcnm = "" := by
    have hv' : vcnm = "Git" ∨ vcnm = "SVN" := by simpa [versCtrlSystems] using hv
    rcases hv' with h | h <;> simp [h]
  have h := vcOuter_filter vcnm hv cmds []
  rw [List.append_nil, List.append_nil] at h
  rw [versCtrlCmdNames, if_neg hne, h]

/-- C9 witness: the spec's concrete instance — active VCS Git keeps
`Commit Git` and `List Dir` (in order) and removes `Commit SVN`. -/
theorem c9_vcs_filter_witness :
    versCtrlCmdNames "Git" ["Commit Git", "Commit SVN", "List Dir"] =
      ["Commit Git", "List Dir"] := by
  rw [c9_vcs_filter "Git" ["Commit Git", "Commit SVN", "List Dir"] (by decide)]
  decide

end Gide
